import Mathlib

/-!
Verification of the oil-benchmark backend (src/main.py).

Embedding conventions:
* Python strings are `List Char` (`Str`); `str.lower`/`str.strip` are modelled
  by `lower`/`strip` below (ASCII case folding, ASCII whitespace), and the
  Python substring test `term in text` by `isSubstr`.
* Python floats are exact rationals `ℚ`; `round(x, 2)` is `round2`.
* `random.Random(seed)` is an injected generator capability `RNG σ`:
  `init` builds the per-call generator state from the seed string alone, and
  `uniform`/`randint` consume state and return a value plus the next state.
  `RNG.Sound` states the range contracts of `random.uniform`/`random.randint`.
  A concrete pinned generator `pinnedRNG` instantiates closed statements.
* `datetime.utcnow()` is an injected clock `now : Int` (microseconds), and
  `datetime.isoformat` an injected serializer `iso : Int → Str`;
  `timedelta(minutes = k)` is `60000000 * k` microseconds.
-/

abbrev Str := List Char

/-- ASCII lower-casing of one character, as `str.lower` acts on ASCII. -/
def lowerChar (c : Char) : Char :=
  if 65 ≤ c.toNat && c.toNat ≤ 90 then Char.ofNat (c.toNat + 32) else c

/-- ASCII upper-casing of one character, as `str.upper` acts on ASCII. -/
def upperChar (c : Char) : Char :=
  if 97 ≤ c.toNat && c.toNat ≤ 122 then Char.ofNat (c.toNat - 32) else c

/-- ASCII whitespace, the characters `str.strip` removes (ASCII fragment). -/
def isSpaceChar (c : Char) : Bool :=
  c = ' ' || c = '\t' || c = '\n' || c = '\r'

/-- `str.lower` on a whole string. -/
def lower (s : Str) : Str := s.map lowerChar

/-- `str.upper` on a whole string. -/
def upper (s : Str) : Str := s.map upperChar

/-- Drop leading whitespace (the left half of `str.strip`). -/
def stripL (s : Str) : Str := s.dropWhile isSpaceChar

/-- Drop trailing whitespace (the right half of `str.strip`). -/
def stripR (s : Str) : Str := (s.reverse.dropWhile isSpaceChar).reverse

/-- `str.strip`: drop whitespace from both ends. -/
def strip (s : Str) : Str := stripR (stripL s)

/-- The lowercase ASCII letters. -/
def lowAZ : Str := ['a','b','c','d','e','f','g','h','i','j','k','l','m',
  'n','o','p','q','r','s','t','u','v','w','x','y','z']

theorem lowerChar_spec (c : Char) :
    lowerChar c = c ∨ (isSpaceChar c = false ∧ lowerChar c ∈ lowAZ) := by
  by_cases h : (65 ≤ c.toNat && c.toNat ≤ 90) = true
  · right
    rw [Bool.and_eq_true, decide_eq_true_eq, decide_eq_true_eq] at h
    obtain ⟨h1, h2⟩ := h
    have hc : c = Char.ofNat c.toNat := (Char.ofNat_toNat c).symm
    obtain ⟨n, hn⟩ : ∃ n, c.toNat = n := ⟨_, rfl⟩
    rw [hn] at h1 h2 hc
    subst hc
    interval_cases n <;> decide
  · left
    unfold lowerChar
    rw [if_neg h]

theorem lowAZ_fixed : ∀ d ∈ lowAZ, lowerChar d = d := by decide

theorem lowAZ_not_space : ∀ d ∈ lowAZ, isSpaceChar d = false := by decide

theorem lowerChar_idem (c : Char) : lowerChar (lowerChar c) = lowerChar c := by
  rcases lowerChar_spec c with h | ⟨-, h⟩
  · simp only [h]
  · exact lowAZ_fixed _ h

theorem isSpaceChar_lowerChar (c : Char) : isSpaceChar (lowerChar c) = isSpaceChar c := by
  rcases lowerChar_spec c with h | ⟨hs, h⟩
  · rw [h]
  · rw [lowAZ_not_space _ h, hs]

theorem lower_lower (s : Str) : lower (lower s) = lower s := by
  have h : lowerChar ∘ lowerChar = lowerChar := funext lowerChar_idem
  simp [lower, List.map_map, h]

theorem dropWhile_dropWhile {α : Type} (p : α → Bool) (l : List α) :
    (l.dropWhile p).dropWhile p = l.dropWhile p := by
  induction l with
  | nil => rfl
  | cons a t ih =>
    by_cases h : p a = true
    · simp [List.dropWhile_cons, h, ih]
    · simp [List.dropWhile_cons, h]

theorem dropWhile_length_le {α : Type} (p : α → Bool) (l : List α) :
    (l.dropWhile p).length ≤ l.length := by
  induction l with
  | nil => simp
  | cons a t ih =>
    by_cases h : p a = true
    · rw [List.dropWhile_cons_of_pos h]
      exact le_trans ih (by simp)
    · rw [List.dropWhile_cons_of_neg h]

theorem dropWhile_head_false {α : Type} (p : α → Bool) (a : α) (t : List α)
    (h : (a :: t : List α).dropWhile p = a :: t) : p a = false := by
  by_cases hp : p a = true
  · rw [List.dropWhile_cons_of_pos hp] at h
    have hlen := dropWhile_length_le p t
    rw [h] at hlen
    simp at hlen
  · simpa using hp

theorem stripL_stripL (s : Str) : stripL (stripL s) = stripL s :=
  dropWhile_dropWhile _ _

theorem stripR_stripR (s : Str) : stripR (stripR s) = stripR s := by
  unfold stripR
  rw [List.reverse_reverse, dropWhile_dropWhile]

theorem stripL_stripR_stripL (s : Str) :
    stripL (stripR (stripL s)) = stripR (stripL s) := by
  have hself : stripL (stripL s) = stripL s := stripL_stripL s
  generalize hy : stripL s = y at *
  cases y with
  | nil => rfl
  | cons a t =>
    have hpa : isSpaceChar a = false :=
      dropWhile_head_false isSpaceChar a t hself
    unfold stripR stripL
    rw [List.reverse_cons, List.dropWhile_append]
    by_cases he : ((t.reverse).dropWhile isSpaceChar).isEmpty = true
    · rw [if_pos he]
      simp [List.dropWhile_cons, hpa]
    · rw [if_neg he]
      simp [List.dropWhile_cons, hpa]

theorem strip_strip (s : Str) : strip (strip s) = strip s := by
  unfold strip
  rw [stripL_stripR_stripL, stripR_stripR]

theorem stripL_lower (s : Str) : stripL (lower s) = lower (stripL s) := by
  unfold stripL lower
  rw [List.dropWhile_map]
  have h : (isSpaceChar ∘ lowerChar) = isSpaceChar := funext isSpaceChar_lowerChar
  rw [h]

theorem stripR_lower (s : Str) : stripR (lower s) = lower (stripR s) := by
  unfold stripR lower
  rw [← List.map_reverse, List.dropWhile_map]
  have h : (isSpaceChar ∘ lowerChar) = isSpaceChar := funext isSpaceChar_lowerChar
  rw [h, List.map_reverse]

theorem strip_lower (s : Str) : strip (lower s) = lower (strip s) := by
  unfold strip
  rw [stripL_lower, stripR_lower]

/-- Normalising twice is normalising once: `lower ∘ strip` is idempotent. -/
theorem norm_idem (x : Str) :
    lower (strip (lower (strip x))) = lower (strip x) := by
  rw [strip_lower, strip_strip, lower_lower]

/-- Python list/string prefix test (helper for `isSubstr`). -/
def isPrefixL : Str → Str → Bool
  | [], _ => true
  | _ :: _, [] => false
  | a :: as, b :: bs => a == b && isPrefixL as bs

/-- Python substring containment `needle in haystack` (contiguous occurrence). -/
def isSubstr (n : Str) : Str → Bool
  | [] => isPrefixL n []
  | b :: t => isPrefixL n (b :: t) || isSubstr n t

theorem isPrefixL_iff : ∀ n h : Str, isPrefixL n h = true ↔ ∃ r, h = n ++ r := by
  intro n
  induction n with
  | nil =>
    intro h
    simp [isPrefixL]
  | cons a as ih =>
    intro h
    cases h with
    | nil =>
      simp [isPrefixL]
    | cons b bs =>
      rw [show isPrefixL (a :: as) (b :: bs) = (a == b && isPrefixL as bs) from rfl]
      rw [Bool.and_eq_true, beq_iff_eq]
      constructor
      · rintro ⟨hab, hpre⟩
        obtain ⟨r, hr⟩ := (ih bs).1 hpre
        exact ⟨r, by rw [List.cons_append, ← hab, ← hr]⟩
      · rintro ⟨r, hr⟩
        rw [List.cons_append] at hr
        injection hr with h1 h2
        exact ⟨h1.symm, (ih bs).2 ⟨r, h2⟩⟩

theorem isSubstr_iff : ∀ h n : Str, isSubstr n h = true ↔ ∃ l r, h = l ++ n ++ r := by
  intro h
  induction h with
  | nil =>
    intro n
    rw [show isSubstr n [] = isPrefixL n [] from rfl, isPrefixL_iff]
    constructor
    · rintro ⟨r, hr⟩
      exact ⟨[], r, by simpa using hr⟩
    · rintro ⟨l, r, hr⟩
      have h0 := hr.symm
      rw [List.append_assoc] at h0
      rw [List.append_eq_nil] at h0
      obtain ⟨hl, hnr⟩ := h0
      rw [List.append_eq_nil] at hnr
      exact ⟨[], by rw [hnr.1]; rfl⟩
  | cons b t ih =>
    intro n
    rw [show isSubstr n (b :: t) = (isPrefixL n (b :: t) || isSubstr n t) from rfl]
    rw [Bool.or_eq_true, isPrefixL_iff, ih]
    constructor
    · rintro (⟨r, hr⟩ | ⟨l, r, hr⟩)
      · exact ⟨[], r, by simpa using hr⟩
      · exact ⟨b :: l, r, by simp [hr]⟩
    · rintro ⟨l, r, hr⟩
      cases l with
      | nil =>
        left
        exact ⟨r, by simpa using hr⟩
      | cons x xs =>
        right
        rw [List.cons_append] at hr
        injection hr with h1 h2
        exact ⟨xs, r, by rw [h2]; simp⟩

/-- One record of the `OIL_BENCHMARKS` in-app dataset. -/
structure Benchmark where
  id : Str
  name : Str
  region : Str
  unit : Str
  deriving DecidableEq

/-- The fixed in-app dataset `OIL_BENCHMARKS` from src/main.py. -/
def OIL_BENCHMARKS : List Benchmark :=
  [ ⟨"brent".data, "Brent Crude".data, "North Sea".data, "USD/bbl".data⟩,
    ⟨"wti".data, "WTI Crude".data, "United States".data, "USD/bbl".data⟩,
    ⟨"opec".data, "OPEC Basket".data, "OPEC Members".data, "USD/bbl".data⟩,
    ⟨"urals".data, "Urals".data, "Russia".data, "USD/bbl".data⟩,
    ⟨"dubai".data, "Dubai/Oman".data, "Middle East".data, "USD/bbl".data⟩ ]

/-- Injected pseudo-random generator capability standing for `random.Random`:
`init` is construction from the seed string alone, `uniform`/`randint` return
a drawn value together with the advanced generator state. -/
structure RNG (σ : Type) where
  init : Str → σ
  uniform : ℚ → ℚ → σ → ℚ × σ
  randint : ℤ → ℤ → σ → ℤ × σ

/-- Range contracts of `random.uniform` and `random.randint`. -/
def RNG.Sound {σ : Type} (g : RNG σ) : Prop :=
  (∀ lo hi : ℚ, ∀ s : σ, lo ≤ hi →
      lo ≤ (g.uniform lo hi s).1 ∧ (g.uniform lo hi s).1 ≤ hi) ∧
  (∀ lo hi : ℤ, ∀ s : σ, lo ≤ hi →
      lo ≤ (g.randint lo hi s).1 ∧ (g.randint lo hi s).1 ≤ hi)

/-- Python `round(x, 2)` over exact rationals. -/
def round2 (x : ℚ) : ℚ := ((round (x * 100) : ℤ) : ℚ) / 100

/-- The snapshot dictionary built by `synth_price`. -/
structure Snapshot where
  symbol : Str
  price : ℚ
  change : ℚ
  percent_change : ℚ
  currency : Str
  unit : Str
  updated_at : Str
  deriving DecidableEq

/-- The fixed base-price table inside `synth_price` (`base.get(symbol, 79.0)`). -/
def baseTable (seed : Str) : ℚ :=
  if seed = "brent".data then 84.2
  else if seed = "wti".data then 80.1
  else if seed = "opec".data then 82.7
  else if seed = "urals".data then 71.9
  else if seed = "dubai".data then 78.3
  else 79.0

/-- `synth_price` from src/main.py: a fresh generator is created from `seed`
alone, then one uniform draw for noise, one for change, one `randint` for the
minute offset, in that order. -/
def synth_price {σ : Type} (g : RNG σ) (iso : Int → Str) (now : Int) (seed : Str) :
    Snapshot :=
  let rnd := g.init seed
  let base_price := baseTable seed
  let u1 := g.uniform (-1.2) 1.2 rnd
  let noise := u1.1
  let price := round2 (base_price + noise)
  let u2 := g.uniform (-2.0) 2.0 u1.2
  let change := round2 u2.1
  let u3 := g.randint 1 45 u2.2
  let updated_at := now - 60000000 * u3.1
  { symbol := upper seed
    price := price
    change := change
    percent_change := round2 ((change / max (price - change) (1 / 1000000)) * 100)
    currency := "USD".data
    unit := "bbl".data
    updated_at := iso updated_at ++ ['Z'] }

/-- One entry of the lookup response list. -/
structure ResultEntry where
  id : Str
  name : Str
  region : Str
  unit : Str
  snapshot : Snapshot
  deriving DecidableEq

/-- The lookup response object. -/
structure LookupResult where
  query : Str
  count : Nat
  results : List ResultEntry
  deriving DecidableEq

/-- The searchable blob of one catalog entry:
`" ".join([item.id, item.name, item.region]).lower()`. -/
def searchText (item : Benchmark) : Str :=
  lower (item.id ++ [' '] ++ item.name ++ [' '] ++ item.region)

/-- The match condition of the lookup loop: `term == "" or term in text`. -/
def matchesB (term : Str) (item : Benchmark) : Bool :=
  term == [] || isSubstr term (searchText item)

/-- The response entry built for one matching catalog item. -/
def mkEntry {σ : Type} (g : RNG σ) (iso : Int → Str) (now : Int)
    (item : Benchmark) : ResultEntry :=
  { id := item.id
    name := item.name
    region := item.region
    unit := item.unit
    snapshot := synth_price g iso now item.id }

/-- `oil_lookup` from src/main.py: normalise the query, filter the catalog,
attach one synthetic snapshot per match. -/
def oil_lookup {σ : Type} (g : RNG σ) (iso : Int → Str) (now : Int)
    (q : Option Str) : LookupResult :=
  let term := lower (strip (q.getD []))
  let ms := (OIL_BENCHMARKS.filter (matchesB term)).map (mkEntry g iso now)
  { query := term
    count := ms.length
    results := ms }

/-- Two sequential calls of `synth_price` in one process: the source allocates
a fresh `random.Random(seed)` inside each call, so no generator state flows
from the first call into the second. -/
def synthesizeTwice {σ : Type} (g : RNG σ) (iso : Int → Str) (now : Int)
    (seed : Str) : Snapshot × Snapshot :=
  (synth_price g iso now seed, synth_price g iso now seed)

/-- One step of the pinned linear congruential generator. -/
def lcgStep (n : ℕ) : ℕ := (1103515245 * n + 12345) % 2147483648

/-- Deterministic seeding of the pinned generator from the seed string. -/
def strSeed (s : Str) : ℕ :=
  s.foldl (fun a c => (a * 31 + c.toNat) % 2147483648) 7

/-- A concrete pinned generator implementing the `RNG` capability (the spec
directs pinning one concrete algorithm per implementation, since Python's
Mersenne Twister stream is not portable). -/
def pinnedRNG : RNG ℕ where
  init := strSeed
  uniform := fun lo hi n =>
    (lo + (hi - lo) * ((lcgStep n % 1000 : ℕ) : ℚ) / 1000, lcgStep n)
  randint := fun lo hi n =>
    (lo + (lcgStep n : ℤ) % max (hi - lo + 1) 1, lcgStep n)

/-- A trivial concrete serializer used to instantiate closed statements. -/
def isoZero : Int → Str := fun _ => []

theorem pinned_sound : RNG.Sound pinnedRNG := by
  constructor
  · intro lo hi s h
    have h0 : (0 : ℚ) ≤ ((lcgStep s % 1000 : ℕ) : ℚ) := Nat.cast_nonneg _
    have h1 : ((lcgStep s % 1000 : ℕ) : ℚ) ≤ 1000 := by
      have hlt : lcgStep s % 1000 < 1000 := Nat.mod_lt _ (by norm_num)
      exact_mod_cast hlt.le
    have hd : (0 : ℚ) ≤ hi - lo := sub_nonneg.mpr h
    constructor
    · show lo ≤ lo + (hi - lo) * ((lcgStep s % 1000 : ℕ) : ℚ) / 1000
      have : 0 ≤ (hi - lo) * ((lcgStep s % 1000 : ℕ) : ℚ) / 1000 :=
        div_nonneg (mul_nonneg hd h0) (by norm_num)
      linarith
    · show lo + (hi - lo) * ((lcgStep s % 1000 : ℕ) : ℚ) / 1000 ≤ hi
      have hmul : (hi - lo) * ((lcgStep s % 1000 : ℕ) : ℚ) ≤ (hi - lo) * 1000 :=
        mul_le_mul_of_nonneg_left h1 hd
      have hdiv : (hi - lo) * ((lcgStep s % 1000 : ℕ) : ℚ) / 1000 ≤ hi - lo := by
        rw [div_le_iff₀ (by norm_num : (0 : ℚ) < 1000)]
        linarith
      linarith
  · intro lo hi s h
    have hmax : max (hi - lo + 1) 1 = hi - lo + 1 := max_eq_left (by omega)
    have he0 : 0 ≤ (lcgStep s : ℤ) % (hi - lo + 1) :=
      Int.emod_nonneg _ (by omega)
    have he1 : (lcgStep s : ℤ) % (hi - lo + 1) < hi - lo + 1 :=
      Int.emod_lt_of_pos _ (by omega)
    constructor
    · show lo ≤ lo + (lcgStep s : ℤ) % max (hi - lo + 1) 1
      rw [hmax]
      linarith
    · show lo + (lcgStep s : ℤ) % max (hi - lo + 1) 1 ≤ hi
      rw [hmax]
      linarith

theorem round2_mono {x y : ℚ} (h : x ≤ y) : round2 x ≤ round2 y := by
  unfold round2
  have hr : round (x * 100) ≤ round (y * 100) := by
    rw [round_eq, round_eq]
    exact Int.floor_le_floor (by linarith)
  have hc : ((round (x * 100) : ℤ) : ℚ) ≤ ((round (y * 100) : ℤ) : ℚ) := by
    exact_mod_cast hr
  rw [div_eq_mul_inv, div_eq_mul_inv]
  exact mul_le_mul_of_nonneg_right hc (by norm_num)

theorem round2_div100 (a : ℤ) : round2 ((a : ℚ) / 100) = (a : ℚ) / 100 := by
  unfold round2
  rw [div_mul_cancel₀ _ (by norm_num : (100 : ℚ) ≠ 0), round_intCast]

theorem round2_two : round2 (2 : ℚ) = 2 := by
  have h := round2_div100 200
  norm_num at h
  exact h

theorem round2_neg_two : round2 (-2 : ℚ) = -2 := by
  have h := round2_div100 (-200)
  norm_num at h
  exact h

theorem round2_707 : round2 (70.7 : ℚ) = 70.7 := by
  have h := round2_div100 7070
  norm_num at h
  convert h using 2 <;> norm_num

theorem base_ge (seed : Str) : (71.9 : ℚ) ≤ baseTable seed := by
  unfold baseTable
  split_ifs <;> norm_num

/-- The match condition, spelt as the spec does: empty normalized query, or a
contiguous occurrence inside the searchable blob. -/
theorem matchesB_iff (term : Str) (item : Benchmark) :
    matchesB term item = true ↔
      (term = [] ∨ ∃ l r, searchText item = l ++ term ++ r) := by
  unfold matchesB
  rw [Bool.or_eq_true, isSubstr_iff]
  constructor
  · rintro (h | h)
    · left
      exact eq_of_beq h
    · right
      exact h
  · rintro (h | h)
    · left
      rw [h]
      rfl
    · right
      exact h

theorem catalog_id_inj :
    ∀ x ∈ OIL_BENCHMARKS, ∀ y ∈ OIL_BENCHMARKS, x.id = y.id → x = y := by decide

theorem mkEntry_id {σ : Type} (g : RNG σ) (iso : Int → Str) (now : Int)
    (item : Benchmark) : (mkEntry g iso now item).id = item.id := rfl

/-- The percent field is computed from the change and the guarded denominator
exactly as in the source. -/
theorem percent_change_def {σ : Type} (g : RNG σ) (iso : Int → Str) (now : Int)
    (seed : Str) :
    (synth_price g iso now seed).percent_change
      = round2 (((synth_price g iso now seed).change /
          max ((synth_price g iso now seed).price - (synth_price g iso now seed).change)
            (1 / 1000000)) * 100) := rfl

/-- The price field is the rounded sum of the base price and the first
uniform draw. -/
theorem price_def {σ : Type} (g : RNG σ) (iso : Int → Str) (now : Int) (seed : Str) :
    (synth_price g iso now seed).price
      = round2 (baseTable seed + (g.uniform (-1.2) 1.2 (g.init seed)).1) := rfl

/-- The change field is the rounded second uniform draw. -/
theorem change_def {σ : Type} (g : RNG σ) (iso : Int → Str) (now : Int) (seed : Str) :
    (synth_price g iso now seed).change
      = round2 ((g.uniform (-2.0) 2.0 (g.uniform (-1.2) 1.2 (g.init seed)).2).1) := rfl

theorem change_bounds {σ : Type} (g : RNG σ) (hg : RNG.Sound g) (iso : Int → Str)
    (now : Int) (seed : Str) :
    -2 ≤ (synth_price g iso now seed).change ∧ (synth_price g iso now seed).change ≤ 2 := by
  have hu := hg.1 (-2.0) 2.0 (g.uniform (-1.2) 1.2 (g.init seed)).2 (by norm_num)
  have h20 : ((-2.0 : ℚ)) = -2 := by norm_num
  have h21 : ((2.0 : ℚ)) = 2 := by norm_num
  rw [change_def]
  constructor
  · have := round2_mono (x := -2) (y := (g.uniform (-2.0) 2.0 (g.uniform (-1.2) 1.2 (g.init seed)).2).1)
      (by rw [← h20]; exact hu.1)
    rw [round2_neg_two] at this
    exact this
  · have := round2_mono (x := (g.uniform (-2.0) 2.0 (g.uniform (-1.2) 1.2 (g.init seed)).2).1) (y := 2)
      (by rw [← h21]; exact hu.2)
    rw [round2_two] at this
    exact this

theorem price_ge {σ : Type} (g : RNG σ) (hg : RNG.Sound g) (iso : Int → Str)
    (now : Int) (seed : Str) :
    (70.7 : ℚ) ≤ (synth_price g iso now seed).price := by
  have hu := hg.1 (-1.2) 1.2 (g.init seed) (by norm_num)
  have hb := base_ge seed
  have harg : (70.7 : ℚ) ≤ baseTable seed + (g.uniform (-1.2) 1.2 (g.init seed)).1 := by
    have h1 : (-1.2 : ℚ) ≤ (g.uniform (-1.2) 1.2 (g.init seed)).1 := hu.1
    have : (70.7 : ℚ) = 71.9 + (-1.2) := by norm_num
    rw [this]
    exact add_le_add hb h1
  rw [price_def]
  have := round2_mono harg
  rw [round2_707] at this
  exact this

/-- The lookup body as a function of the already-normalised term (proof helper;
`oil_lookup` is definitionally `lookupOf` applied to the normalised query). -/
def lookupOf {σ : Type} (g : RNG σ) (iso : Int → Str) (now : Int) (term : Str) :
    LookupResult :=
  let ms := (OIL_BENCHMARKS.filter (matchesB term)).map (mkEntry g iso now)
  { query := term
    count := ms.length
    results := ms }

theorem oil_lookup_eq {σ : Type} (g : RNG σ) (iso : Int → Str) (now : Int)
    (q : Option Str) :
    oil_lookup g iso now q = lookupOf g iso now (lower (strip (q.getD []))) := rfl

/-- C2: for every query (absent, empty or not), the reported count is the
length of the reported results list. -/
theorem lookup_count_eq_length {σ : Type} (g : RNG σ) (iso : Int → Str) (now : Int)
    (q : Option Str) :
    (oil_lookup g iso now q).count = (oil_lookup g iso now q).results.length := rfl

/-- C3: the denominator used for `percent_change` is
`max (price - change) (1 / 1000000)`, which is at least `1 / 1000000`, hence
positive and nonzero, so the division is always well defined. -/
theorem percent_denominator_guarded {σ : Type} (g : RNG σ) (iso : Int → Str)
    (now : Int) (seed : Str) :
    (synth_price g iso now seed).percent_change
      = round2 (((synth_price g iso now seed).change /
          max ((synth_price g iso now seed).price - (synth_price g iso now seed).change)
            (1 / 1000000)) * 100)
    ∧ (1 / 1000000 : ℚ)
        ≤ max ((synth_price g iso now seed).price - (synth_price g iso now seed).change)
            (1 / 1000000)
    ∧ 0 < max ((synth_price g iso now seed).price - (synth_price g iso now seed).change)
            (1 / 1000000)
    ∧ max ((synth_price g iso now seed).price - (synth_price g iso now seed).change)
        (1 / 1000000) ≠ 0 := by
  refine ⟨percent_change_def g iso now seed, le_max_right _ _, ?_, ?_⟩
  · exact lt_of_lt_of_le (by norm_num) (le_max_right _ _)
  · exact ne_of_gt (lt_of_lt_of_le (by norm_num) (le_max_right _ _))

/-- C4: the synthesizer is pure in the seed and the injected clock: two calls
with the same seed and clock agree field by field. -/
theorem synth_price_deterministic {σ : Type} (g : RNG σ) (iso : Int → Str)
    (now : Int) (seed : Str) :
    (synthesizeTwice g iso now seed).1.symbol = (synthesizeTwice g iso now seed).2.symbol
    ∧ (synthesizeTwice g iso now seed).1.price = (synthesizeTwice g iso now seed).2.price
    ∧ (synthesizeTwice g iso now seed).1.change = (synthesizeTwice g iso now seed).2.change
    ∧ (synthesizeTwice g iso now seed).1.percent_change
        = (synthesizeTwice g iso now seed).2.percent_change
    ∧ (synthesizeTwice g iso now seed).1.currency = (synthesizeTwice g iso now seed).2.currency
    ∧ (synthesizeTwice g iso now seed).1.unit = (synthesizeTwice g iso now seed).2.unit
    ∧ (synthesizeTwice g iso now seed).1.updated_at
        = (synthesizeTwice g iso now seed).2.updated_at :=
  ⟨rfl, rfl, rfl, rfl, rfl, rfl, rfl⟩

/-- C5, refuted as stated: there is no seed for which two same-process calls
(at the same injected clock) differ in price or change. -/
theorem repeated_calls_differ_refuted :
    ¬ ∃ seed : Str,
      (synthesizeTwice pinnedRNG isoZero 0 seed).1.price
          ≠ (synthesizeTwice pinnedRNG isoZero 0 seed).2.price
      ∨ (synthesizeTwice pinnedRNG isoZero 0 seed).1.change
          ≠ (synthesizeTwice pinnedRNG isoZero 0 seed).2.change := by
  rintro ⟨s, h | h⟩ <;> exact h rfl

/-- C5, amended: repeated same-process calls with the same seed and clock are
identical, because each call allocates a fresh generator from the seed alone. -/
theorem repeated_calls_identical {σ : Type} (g : RNG σ) (iso : Int → Str)
    (now : Int) (seed : Str) :
    (synthesizeTwice g iso now seed).1 = (synthesizeTwice g iso now seed).2 := rfl

/-- C8: the timestamp is the injected clock minus an integer number of minutes
between 1 and 45 drawn by `randint`, serialized by the injected ISO formatter
with a literal Z appended. -/
theorem updated_at_offset {σ : Type} (g : RNG σ) (hg : RNG.Sound g)
    (iso : Int → Str) (now : Int) (seed : Str) :
    ∃ k : ℤ, 1 ≤ k ∧ k ≤ 45 ∧
      (synth_price g iso now seed).updated_at = iso (now - 60000000 * k) ++ ['Z'] := by
  refine ⟨(g.randint 1 45 (g.uniform (-2.0) 2.0 (g.uniform (-1.2) 1.2 (g.init seed)).2).2).1,
    ?_, ?_, rfl⟩
  · exact (hg.2 1 45 _ (by norm_num)).1
  · exact (hg.2 1 45 _ (by norm_num)).2

/-- C8 witness at the pinned generator. -/
theorem updated_at_offset_witness :
    ∃ k : ℤ, 1 ≤ k ∧ k ≤ 45 ∧
      (synth_price pinnedRNG isoZero 0 "brent".data).updated_at
        = isoZero (0 - 60000000 * k) ++ ['Z'] :=
  updated_at_offset pinnedRNG pinned_sound isoZero 0 ("brent".data)

/-- C10: the query field returned by lookup is already normalised, so feeding
it back into lookup reproduces the same response. -/
theorem lookup_query_fixed_point {σ : Type} (g : RNG σ) (iso : Int → Str)
    (now : Int) (q : Option Str) :
    oil_lookup g iso now (some ((oil_lookup g iso now q).query))
      = oil_lookup g iso now q := by
  have hq : (oil_lookup g iso now q).query = lower (strip (q.getD [])) := rfl
  rw [hq, oil_lookup_eq g iso now (some (lower (strip (q.getD [])))),
    oil_lookup_eq g iso now q, Option.getD_some, norm_idem]

/-- C6: the base-price table and the draw bounds of `synth_price`: the fixed
five-entry table with default 79.0, a pre-rounding noise in [-1.2, 1.2] added
to the base, and a change in [-2, 2]. -/
theorem synth_bounds {σ : Type} (g : RNG σ) (hg : RNG.Sound g) (iso : Int → Str)
    (now : Int) (seed : Str) :
    (baseTable "brent".data = 84.2 ∧ baseTable "wti".data = 80.1
      ∧ baseTable "opec".data = 82.7 ∧ baseTable "urals".data = 71.9
      ∧ baseTable "dubai".data = 78.3)
    ∧ (∀ s : Str, s ≠ "brent".data → s ≠ "wti".data → s ≠ "opec".data →
        s ≠ "urals".data → s ≠ "dubai".data → baseTable s = 79.0)
    ∧ (∃ noise : ℚ, -1.2 ≤ noise ∧ noise ≤ 1.2 ∧
        (synth_price g iso now seed).price = round2 (baseTable seed + noise))
    ∧ (-2 ≤ (synth_price g iso now seed).change
        ∧ (synth_price g iso now seed).change ≤ 2) := by
  refine ⟨⟨rfl, rfl, rfl, rfl, rfl⟩, ?_, ?_, change_bounds g hg iso now seed⟩
  · intro s h1 h2 h3 h4 h5
    unfold baseTable
    rw [if_neg h1, if_neg h2, if_neg h3, if_neg h4, if_neg h5]
  · refine ⟨(g.uniform (-1.2) 1.2 (g.init seed)).1, ?_, ?_, price_def g iso now seed⟩
    · exact (hg.1 (-1.2) 1.2 (g.init seed) (by norm_num)).1
    · exact (hg.1 (-1.2) 1.2 (g.init seed) (by norm_num)).2

/-- C6 witness at the pinned generator and seed "brent". -/
theorem synth_bounds_witness :
    RNG.Sound pinnedRNG
    ∧ (-2 ≤ (synth_price pinnedRNG isoZero 0 "brent".data).change
        ∧ (synth_price pinnedRNG isoZero 0 "brent".data).change ≤ 2) :=
  ⟨pinned_sound, (synth_bounds pinnedRNG pinned_sound isoZero 0 ("brent".data)).2.2.2⟩

/-- C9: the guarded denominator never binds: the price minus change stays at
least 68.69, the price is positive, and `percent_change` equals the unguarded
quotient formula exactly. -/
theorem percent_guard_never_binds {σ : Type} (g : RNG σ) (hg : RNG.Sound g)
    (iso : Int → Str) (now : Int) (seed : Str) :
    (68.69 : ℚ) ≤ (synth_price g iso now seed).price - (synth_price g iso now seed).change
    ∧ 0 < (synth_price g iso now seed).price
    ∧ max ((synth_price g iso now seed).price - (synth_price g iso now seed).change)
        (1 / 1000000) = (synth_price g iso now seed).price - (synth_price g iso now seed).change
    ∧ (synth_price g iso now seed).percent_change
        = round2 (((synth_price g iso now seed).change /
            ((synth_price g iso now seed).price - (synth_price g iso now seed).change))
              * 100) := by
  have hp := price_ge g hg iso now seed
  have hc := change_bounds g hg iso now seed
  have h1 : (68.69 : ℚ)
      ≤ (synth_price g iso now seed).price - (synth_price g iso now seed).change := by
    have := hc.2
    linarith
  have hmax : max ((synth_price g iso now seed).price - (synth_price g iso now seed).change)
      (1 / 1000000) = (synth_price g iso now seed).price - (synth_price g iso now seed).change :=
    max_eq_left (by linarith)
  refine ⟨h1, by linarith, hmax, ?_⟩
  rw [percent_change_def g iso now seed, hmax]

/-- C9 witness at the pinned generator and seed "wti". -/
theorem percent_guard_never_binds_witness :
    (68.69 : ℚ) ≤ (synth_price pinnedRNG isoZero 0 "wti".data).price
        - (synth_price pinnedRNG isoZero 0 "wti".data).change :=
  (percent_guard_never_binds pinnedRNG pinned_sound isoZero 0 ("wti".data)).1

/-- C7: lookup normalises its query (trim then lowercase) before matching:
looking up the normalised form gives the same response, "BRENT" behaves like
"brent", and the empty and absent queries return all five entries. -/
theorem lookup_normalizes {σ : Type} (g : RNG σ) (iso : Int → Str) (now : Int) :
    (∀ q : Option Str, oil_lookup g iso now q
        = oil_lookup g iso now (some (lower (strip (q.getD [])))))
    ∧ oil_lookup g iso now (some "BRENT".data) = oil_lookup g iso now (some "brent".data)
    ∧ oil_lookup g iso now (some "".data) = oil_lookup g iso now none
    ∧ (oil_lookup g iso now none).results.map ResultEntry.id
        = ["brent".data, "wti".data, "opec".data, "urals".data, "dubai".data]
    ∧ (oil_lookup g iso now none).count = 5 := by
  refine ⟨?_, rfl, rfl, rfl, rfl⟩
  intro q
  rw [oil_lookup_eq g iso now q,
    oil_lookup_eq g iso now (some (lower (strip (q.getD [])))),
    Option.getD_some, norm_idem]

/-- C1: looking up "crude" returns exactly the ids "brent" then "wti" in
catalog order, and in general a catalog entry appears in the results exactly
when the normalised query is empty or occurs contiguously in the entry's
lowercase id-name-region blob. -/
theorem lookup_crude_spec {σ : Type} (g : RNG σ) (iso : Int → Str) (now : Int) :
    ((oil_lookup g iso now (some "crude".data)).results.map ResultEntry.id
        = ["brent".data, "wti".data])
    ∧ ∀ (q : Option Str) (item : Benchmark), item ∈ OIL_BENCHMARKS →
        ((∃ e ∈ (oil_lookup g iso now q).results, e.id = item.id) ↔
          (lower (strip (q.getD [])) = [] ∨
            ∃ l r, searchText item = l ++ lower (strip (q.getD [])) ++ r)) := by
  constructor
  · rfl
  · intro q item hmem
    rw [← matchesB_iff, oil_lookup_eq g iso now q]
    show (∃ e ∈ (OIL_BENCHMARKS.filter (matchesB (lower (strip (q.getD []))))).map
        (mkEntry g iso now), e.id = item.id) ↔ _
    constructor
    · rintro ⟨e, he, hid⟩
      obtain ⟨x, hx, rfl⟩ := List.mem_map.1 he
      rw [List.mem_filter] at hx
      rw [mkEntry_id] at hid
      have hxi := catalog_id_inj x hx.1 item hmem hid
      rw [← hxi]
      exact hx.2
    · intro h
      refine ⟨mkEntry g iso now item, ?_, mkEntry_id g iso now item⟩
      exact List.mem_map_of_mem _ (List.mem_filter.2 ⟨hmem, h⟩)

/-- C1 witness: the characterisation applied at the "brent" entry and the
query "crude" with the pinned generator. -/
theorem lookup_crude_spec_witness :
    (⟨"brent".data, "Brent Crude".data, "North Sea".data, "USD/bbl".data⟩ : Benchmark)
      ∈ OIL_BENCHMARKS
    ∧ ((∃ e ∈ (oil_lookup pinnedRNG isoZero 0 (some "crude".data)).results,
          e.id = "brent".data) ↔
        (lower (strip ((some "crude".data : Option Str).getD [])) = [] ∨
          ∃ l r, searchText
              ⟨"brent".data, "Brent Crude".data, "North Sea".data, "USD/bbl".data⟩
            = l ++ lower (strip ((some "crude".data : Option Str).getD [])) ++ r)) :=
  ⟨by decide, (lookup_crude_spec pinnedRNG isoZero 0).2 (some "crude".data)
    ⟨"brent".data, "Brent Crude".data, "North Sea".data, "USD/bbl".data⟩ (by decide)⟩
